import Mathlib

/-!
Verification development for the chatbox real-time conversation
synchronization engine (server/index.js).  The persisted entities
(Message, Mention, Reaction, MessageRead, MessageHistory) and the
socket event handlers (pin_message, delete_message, restore_message,
edit_message, toggle_reaction, mark_read, mark_mention_read) together
with the read-receipt buffer and the thread resolver are embedded as
pure Lean functions over an explicit store.  Timestamps are natural
numbers (milliseconds); the external sanitize-html library is passed
in as an uninterpreted function argument.
-/

namespace Chatbox

/-- A row of the Message table.  Fields follow prisma's Message model:
content is nullable, parentId is an optional self reference, isDeleted /
isPinned / wasPinned are the soft-delete and pin flags. -/
structure Message where
  id : Nat
  content : Option String
  authorId : Nat
  parentId : Option Nat
  createdAt : Nat
  isDeleted : Bool
  isPinned : Bool
  wasPinned : Bool
deriving Repr, DecidableEq

/-- A row of the Mention table: (user, message) with read state. -/
structure Mention where
  id : Nat
  userId : Nat
  messageId : Nat
  isRead : Bool
  readAt : Option Nat
deriving Repr, DecidableEq

/-- A row of the Reaction table: (user, message, emoji) with a row id. -/
structure Reaction where
  id : Nat
  userId : Nat
  messageId : Nat
  emoji : String
deriving Repr, DecidableEq

/-- A row of the MessageRead table: a durable (user, message) receipt. -/
structure MessageRead where
  userId : Nat
  messageId : Nat
deriving Repr, DecidableEq

/-- A row of the MessageHistory table: a pre-edit content snapshot. -/
structure HistoryEntry where
  messageId : Nat
  oldContent : String
deriving Repr, DecidableEq

/-- The persisted store.  nextReactionId models the autoincrement id
counter of the Reaction table. -/
structure Store where
  messages : List Message
  mentions : List Mention
  reactions : List Reaction
  reads : List MessageRead
  history : List HistoryEntry
  nextReactionId : Nat
deriving Repr, DecidableEq

/-- Outbound socket events relevant to the verified handlers. -/
inductive Event where
  | messageUpdated (messageId : Nat)
  | messageDeleted (messageId : Nat)
  | messageRestored (messageId : Nat)
  | messagePinned (messageId : Nat) (isPinned : Bool)
  | reactionAdded (messageId reactionId userId : Nat) (emoji : String)
  | reactionRemoved (messageId : Nat) (emoji : String) (userId : Nat)
  | readBatch (messageId : Nat) (userIds : List Nat)
  | mentionReadStatus (mentionId messageId readByUserId readAt : Nat)
  | myMentionUpdated (mentionId : Nat)
deriving Repr, DecidableEq

/-- Result of one handler invocation: the resulting store, the events
broadcast to the shared channel, the events sent to per-user private
channels, and the error (if any) emitted back to the invoking socket. -/
structure HandlerResult where
  store : Store
  broadcasts : List Event
  directed : List (Nat × Event)
  errorToActor : Option String
deriving Repr, DecidableEq

/-- prisma.message.findUnique by id. -/
def findMessage (s : Store) (mid : Nat) : Option Message :=
  s.messages.find? (fun m => m.id == mid)

/-- prisma.message.update by id: applies f to the matching row. -/
def updateMessage (s : Store) (mid : Nat) (f : Message → Message) : Store :=
  { s with messages := s.messages.map (fun m => if m.id == mid then f m else m) }

/-- Result of a handler that did nothing observable. -/
def noReply (s : Store) : HandlerResult :=
  { store := s, broadcasts := [], directed := [], errorToActor := none }

/-- Result of a handler that aborted, emitting an error to the actor. -/
def errReply (s : Store) (msg : String) : HandlerResult :=
  { store := s, broadcasts := [], directed := [], errorToActor := some msg }

/-- prisma.message.updateMany where isPinned, data isPinned false: the
unscoped clear step of the pin_message handler. -/
def clearAllPins (s : Store) : Store :=
  { s with messages := s.messages.map (fun m => { m with isPinned := false }) }

/-- The pin_message handler.  When isPinned is requested true it first
clears isPinned on every message (updateMany), then updates the target;
a missing target makes the update throw, which the catch turns into an
error emitted to the actor.  No authorization check is performed. -/
def pinMessage (s : Store) (mid : Nat) (isPinned : Bool) : HandlerResult :=
  let s1 := if isPinned then clearAllPins s else s
  match findMessage s1 mid with
  | none => errReply s1 "Failed to pin message"
  | some _ =>
    { store := updateMessage s1 mid (fun m => { m with isPinned := isPinned }),
      broadcasts := [.messagePinned mid isPinned],
      directed := [], errorToActor := none }

/-- The handleDeleteMessage helper behind delete_message.  A missing
target returns silently; a non-author non-superuser (id 1) invoker gets
an Unauthorized error; otherwise the message is soft-deleted, recording
the prior pin state in wasPinned, and the deletion (plus an unpin event
when it had been pinned) is broadcast. -/
def deleteMessage (s : Store) (actorId mid : Nat) : HandlerResult :=
  match findMessage s mid with
  | none => noReply s
  | some msg =>
    if msg.authorId ≠ actorId ∧ actorId ≠ 1 then
      errReply s "Unauthorized"
    else
      { store := updateMessage s mid
          (fun m => { m with isDeleted := true, isPinned := false, wasPinned := msg.isPinned }),
        broadcasts := (if msg.isPinned then [.messagePinned mid false] else [])
          ++ [.messageDeleted mid],
        directed := [], errorToActor := none }

/-- The restore_message handler.  A missing target or a non-author
invoker returns silently; otherwise isDeleted is cleared, isPinned is
restored from wasPinned and wasPinned is cleared, the restored message
is broadcast, followed by a pin event when the pin was restored. -/
def restoreMessage (s : Store) (actorId mid : Nat) : HandlerResult :=
  match findMessage s mid with
  | none => noReply s
  | some msg =>
    if msg.authorId ≠ actorId then noReply s
    else
      { store := updateMessage s mid
          (fun m => { m with isDeleted := false, isPinned := msg.wasPinned, wasPinned := false }),
        broadcasts := [.messageRestored mid]
          ++ (if msg.wasPinned then [.messagePinned mid true] else []),
        directed := [], errorToActor := none }

/-- The 5-minute edit window from the edit_message handler. -/
def EDIT_WINDOW_MS : Nat := 5 * 60 * 1000

/-- The edit_message handler.  A missing target or non-author invoker
throws Unauthorized; an edit later than 5 minutes after creation throws
the window error; both are caught and emitted as errors to the actor.
On success a single transaction appends the pre-edit content to
MessageHistory, resets every Mention on the message to unread, and
stores the sanitized new content; the update is then broadcast. -/
def editMessage (sanitize : String → String) (s : Store) (actorId mid : Nat)
    (newContent : String) (now : Nat) : HandlerResult :=
  match findMessage s mid with
  | none => errReply s "Unauthorized"
  | some msg =>
    if msg.authorId ≠ actorId then errReply s "Unauthorized"
    else if EDIT_WINDOW_MS < now - msg.createdAt then
      errReply s "Edit time limit exceeded (5 mins)"
    else
      let s1 := { s with history := s.history ++ [HistoryEntry.mk mid (msg.content.getD "")] }
      let resetMn := fun (mn : Mention) =>
        if mn.messageId == mid then { mn with isRead := false, readAt := none } else mn
      let s2 := { s1 with mentions := s1.mentions.map resetMn }
      let s3 := updateMessage s2 mid (fun m => { m with content := some (sanitize newContent) })
      { store := s3, broadcasts := [.messageUpdated mid], directed := [], errorToActor := none }

/-- The toggle_reaction handler.  If a (user, message, emoji) row exists
it is deleted by row id and a removal delta broadcast; otherwise a row
is created (which fails on the message foreign key when the message is
absent — that failure is caught and only logged) and an addition delta
broadcast.  Errors are never emitted to the actor. -/
def toggleReaction (s : Store) (actorId mid : Nat) (emoji : String) : HandlerResult :=
  match s.reactions.find?
      (fun r => r.userId == actorId && r.messageId == mid && r.emoji == emoji) with
  | some r =>
    { store := { s with reactions := s.reactions.filter (fun x => x.id != r.id) },
      broadcasts := [.reactionRemoved mid emoji actorId],
      directed := [], errorToActor := none }
  | none =>
    match findMessage s mid with
    | none => noReply s
    | some _ =>
      { store := { s with
          reactions := s.reactions ++ [Reaction.mk s.nextReactionId actorId mid emoji],
          nextReactionId := s.nextReactionId + 1 },
        broadcasts := [.reactionAdded mid s.nextReactionId actorId emoji],
        directed := [], errorToActor := none }

/-- The in-memory read-receipt buffer: an insertion-ordered map from
message id to the insertion-ordered set of user ids buffered since the
last flush (a JS Map of Sets). -/
abbrev ReadBuffer := List (Nat × List Nat)

/-- Set.add on the buffer entry for a message id, creating the entry
when absent (JS Set semantics: no duplicate insertion, order kept). -/
def bufferAdd (buf : ReadBuffer) (mid uid : Nat) : ReadBuffer :=
  match buf.find? (fun e => e.1 == mid) with
  | none => buf ++ [(mid, [uid])]
  | some _ => buf.map (fun e =>
      if e.1 == mid then (e.1, if uid ∈ e.2 then e.2 else e.2 ++ [uid]) else e)

/-- The mark_read handler: durably upsert the (user, message) receipt
(the upsert throws on the message foreign key when the message is
absent, swallowed by the empty catch, skipping the buffer insertion),
then insert the user id into the in-memory buffer for the message. -/
def markRead (s : Store) (buf : ReadBuffer) (actorId mid : Nat) : Store × ReadBuffer :=
  match findMessage s mid with
  | none => (s, buf)
  | some _ =>
    let s1 := if s.reads.any (fun r => r.userId == actorId && r.messageId == mid)
      then s
      else { s with reads := s.reads ++ [MessageRead.mk actorId mid] }
    (s1, bufferAdd buf mid actorId)

/-- The 2-second flush tick: when the buffer is empty nothing is sent;
otherwise one batched read event is broadcast per buffered message id
and the buffer is cleared. -/
def flushReadBuffer (buf : ReadBuffer) : List Event × ReadBuffer :=
  if buf.isEmpty then ([], buf)
  else (buf.map (fun e => Event.readBatch e.1 e.2), [])

/-- The mark_mention_read handler.  prisma.mention.update by mention id
(throwing when absent — caught and only logged) sets isRead true and
readAt to now, then two directed notifications are sent: a read-status
receipt to the host message's author and an update to the mentioned
user's own sessions.  The invoking actor is never consulted: no
authorization check is performed. -/
def acknowledgeMention (s : Store) (_actorId mentionId now : Nat) : HandlerResult :=
  match s.mentions.find? (fun mn => mn.id == mentionId) with
  | none => noReply s
  | some mn =>
    match findMessage s mn.messageId with
    | none => noReply s
    | some host =>
      { store := { s with mentions := s.mentions.map (fun x =>
          if x.id == mentionId then { x with isRead := true, readAt := some now } else x) },
        broadcasts := [],
        directed := [(host.authorId, .mentionReadStatus mentionId mn.messageId mn.userId now),
                     (mn.userId, .myMentionUpdated mentionId)],
        errorToActor := none }

/-- The upward root walk of GET /api/messages/:id/thread, indexed by
explicit fuel.  The JS loop (while rootMessage.parentId, stopping when
a referenced parent cannot be found) carries no bound of its own: it
terminates on an input exactly when some finite fuel returns a root,
and a result of none for every fuel means the loop runs forever. -/
def walkUp (s : Store) : Nat → Message → Option Message
  | 0, _ => none
  | fuel + 1, m =>
    match m.parentId with
    | none => some m
    | some pid =>
      match findMessage s pid with
      | none => some m
      | some p => walkUp s fuel p

/-- One fetch of the downward expansion: all messages whose parentId is
in the frontier (deleted descendants are not filtered out). -/
def childrenOf (s : Store) (frontier : List Nat) : List Message :=
  s.messages.filter (fun m =>
    match m.parentId with
    | some pid => frontier.contains pid
    | none => false)

/-- The hard depth bound of the downward expansion. -/
def MAX_DEPTH : Nat := 50

/-- The downward breadth-first expansion, recursing on the remaining
depth budget (MAX_DEPTH minus the depth counter of the JS loop).  It
returns the accumulated replies and the number of fetch rounds that
were executed; the loop exits when the budget is exhausted or a fetch
returns nothing. -/
def bfsLoop (s : Store) : Nat → List Nat → List Message × Nat
  | 0, _ => ([], 0)
  | fuel + 1, queue =>
    if queue.isEmpty then ([], 0)
    else
      let batch := childrenOf s queue
      if batch.isEmpty then ([], 0)
      else
        let rest := bfsLoop s fuel (batch.map (fun m => m.id))
        (batch ++ rest.1, rest.2 + 1)

/-- The downward phase of the thread resolver, started from the root id
with the full depth budget. -/
def threadReplies (s : Store) (rootId : Nat) : List Message × Nat :=
  bfsLoop s MAX_DEPTH [rootId]

/-- One operation of the pin-relevant serial machine. -/
inductive ChatOp where
  | pin (messageId : Nat) (isPinned : Bool)
  | del (actorId messageId : Nat)
  | restore (actorId messageId : Nat)
deriving Repr, DecidableEq

/-- Apply one operation to the persisted store. -/
def applyOp (s : Store) : ChatOp → Store
  | .pin mid b => (pinMessage s mid b).store
  | .del a mid => (deleteMessage s a mid).store
  | .restore a mid => (restoreMessage s a mid).store

/-- Run a serial sequence of operations. -/
def runOps (s : Store) (ops : List ChatOp) : Store :=
  ops.foldl applyOp s

/-- Number of messages currently pinned. -/
def pinnedCount (s : Store) : Nat :=
  s.messages.countP (fun m => m.isPinned)

/-- Message ids are pairwise distinct (the table's primary key). -/
def NodupIds (s : Store) : Prop :=
  (s.messages.map (fun m => m.id)).Nodup

end Chatbox

namespace Chatbox

/-- A plain message row: undeleted, unpinned, no parent. -/
def mkMsg (id authorId : Nat) (createdAt : Nat := 0) (parentId : Option Nat := none) : Message :=
  { id := id, content := some "m", authorId := authorId, parentId := parentId,
    createdAt := createdAt, isDeleted := false, isPinned := false, wasPinned := false }

/-- Two ordinary messages by user 1, nothing pinned. -/
def cexStore : Store :=
  { messages := [mkMsg 1 1, mkMsg 2 1], mentions := [], reactions := [],
    reads := [], history := [], nextReactionId := 1 }

/-- Does a ChatOp invoke the restore_message handler? -/
def isRestoreOp : ChatOp → Bool
  | .restore _ _ => true
  | _ => false

/-- A store whose two messages reference each other as parents: message
1 has parentId 2 and message 2 has parentId 1. -/
def cycStore : Store :=
  { messages := [mkMsg 1 1 0 (some 2), mkMsg 2 1 0 (some 1)], mentions := [], reactions := [],
    reads := [], history := [], nextReactionId := 1 }

/-- Does a message's parent link point strictly below its own id?  All
stores produced by send_message satisfy this, because a reply can only
reference an already-persisted (hence lower-id) message. -/
def parentBelow (m : Message) : Bool :=
  match m.parentId with
  | none => true
  | some pid => pid < m.id

/-- A one-message store with two mentions on it, one already
acknowledged and one unread. -/
def mnStore : Store :=
  { messages := [mkMsg 1 1],
    mentions := [Mention.mk 1 2 1 true (some 3), Mention.mk 2 3 1 false none],
    reactions := [], reads := [], history := [], nextReactionId := 1 }

/-- A two-message store in which message 1 is currently pinned. -/
def pinStore : Store :=
  { messages := [{ mkMsg 1 1 with isPinned := true }, mkMsg 2 1], mentions := [],
    reactions := [], reads := [], history := [], nextReactionId := 1 }

/-- A handler outcome is atomic relative to the pre-state: an aborted
invocation (one that reports an error to its actor) leaves the store
exactly as it was with nothing broadcast, and any change to the store
comes with its broadcast. -/
def atomicResult (s : Store) (r : HandlerResult) : Prop :=
  (r.errorToActor ≠ none → r.store = s ∧ r.broadcasts = []) ∧
  (r.store ≠ s → r.broadcasts ≠ [])

/-- Number of Reaction rows carrying a given (user, message, emoji)
triple. -/
def reactionKeyCount (s : Store) (uid mid : Nat) (e : String) : Nat :=
  s.reactions.countP (fun r => r.userId == uid && r.messageId == mid && r.emoji == e)

/-- The autoincrement discipline of the Reaction table: every stored
row id is below the counter and row ids are pairwise distinct. -/
def ReactionIdsFresh (s : Store) : Prop :=
  (∀ r ∈ s.reactions, r.id < s.nextReactionId) ∧
  (s.reactions.map (fun r => r.id)).Nodup

/-- The Reaction_userId_messageId_emoji_key unique index: at most one
row per (user, message, emoji) triple. -/
def NoDupTriples (s : Store) : Prop :=
  ∀ uid mid e, reactionKeyCount s uid mid e ≤ 1

/-- Run a serial sequence of toggle_reaction calls, each given by an
acting user, a message id and an emoji. -/
def runToggles (s : Store) (ops : List (Nat × Nat × String)) : Store :=
  ops.foldl (fun st op => (toggleReaction st op.1 op.2.1 op.2.2).store) s

/-- Number of durable MessageRead rows for a (user, message) pair. -/
def readCount (s : Store) (uid mid : Nat) : Nat :=
  s.reads.countP (fun r => r.userId == uid && r.messageId == mid)

/-- Invoke mark_read n times in a row for the same (user, message)
pair, threading the store and the in-memory buffer. -/
def repeatMarkRead (uid mid : Nat) : Nat → Store × ReadBuffer → Store × ReadBuffer
  | 0, sb => sb
  | n + 1, sb => repeatMarkRead uid mid n (markRead sb.1 sb.2 uid mid)

/-- Every buffered user-id set is duplicate free (JS Set semantics). -/
def BufNodup (buf : ReadBuffer) : Prop :=
  ∀ e ∈ buf, e.2.Nodup

/-- Run a serial sequence of mark_read calls, each given by an acting
user and a message id. -/
def runMarkReads (sb : Store × ReadBuffer) (ops : List (Nat × Nat)) : Store × ReadBuffer :=
  ops.foldl (fun sb op => markRead sb.1 sb.2 op.1 op.2) sb

/-- A one-message store carrying a single unread mention: message 1 is
authored by user 3 and mentions user 2. -/
def ackStore : Store :=
  { messages := [mkMsg 1 3], mentions := [Mention.mk 1 2 1 false none],
    reactions := [], reads := [], history := [], nextReactionId := 1 }

end Chatbox

-- Theorems

namespace Chatbox

/-- Counting a predicate after mapping is bounded by counting any
predicate that the image predicate implies on the original list. -/
theorem countP_map_le {α : Type} (l : List α) (f : α → α) (p q : α → Bool)
    (h : ∀ a ∈ l, p (f a) = true → q a = true) :
    (l.map f).countP p ≤ l.countP q := by
  induction l with
  | nil => simp
  | cons x xs ih =>
    simp only [List.map_cons, List.countP_cons]
    have hx := h x (by simp)
    have hxs : ∀ a ∈ xs, p (f a) = true → q a = true := fun a ha => h a (by simp [ha])
    have hle := ih hxs
    by_cases hpf : p (f x) = true
    · rw [if_pos hpf, if_pos (hx hpf)]
      omega
    · rw [if_neg hpf]
      by_cases hq : q x = true
      · rw [if_pos hq]; omega
      · rw [if_neg hq]; omega

/-- In a list whose keys are pairwise distinct, at most one element
carries any given key. -/
theorem key_countP_le_one {α β : Type} [BEq β] [LawfulBEq β] (l : List α) (k : α → β)
    (h : (l.map k).Nodup) (x : β) :
    l.countP (fun a => k a == x) ≤ 1 := by
  induction l with
  | nil => simp
  | cons a as ih =>
    simp only [List.map_cons, List.nodup_cons] at h
    simp only [List.countP_cons]
    by_cases hk : (k a == x) = true
    · have hx : k a = x := eq_of_beq hk
      have h0 : as.countP (fun b => k b == x) = 0 := by
        rw [List.countP_eq_zero]
        intro b hb hbx
        exact h.1 (hx ▸ (eq_of_beq hbx) ▸ List.mem_map_of_mem k hb)
      rw [if_pos hk, h0]
    · rw [if_neg hk]
      have := ih h.2
      omega

/-- find? commutes with a map that does not change the predicate. -/
theorem find?_map_comm {α : Type} (l : List α) (g : α → α) (p : α → Bool)
    (h : ∀ a, p (g a) = p a) :
    (l.map g).find? p = (l.find? p).map g := by
  induction l with
  | nil => rfl
  | cons x xs ih =>
    simp only [List.map_cons, List.find?_cons, h x]
    cases hp : p x <;> simp [ih]

/-- A key-preserving row update leaves the key list unchanged. -/
theorem map_keys_preserved {α β : Type} (l : List α) (g : α → α) (k : α → β)
    (h : ∀ a, k (g a) = k a) :
    (l.map g).map k = l.map k := by
  induction l with
  | nil => rfl
  | cons x xs ih => simp [h x, ih]

/-- When a predicate holds for at most one entry, any two members
satisfying it are equal. -/
theorem countP_le_one_unique {α : Type} (l : List α) (P : α → Bool) (h : l.countP P ≤ 1)
    {a b : α} (ha : a ∈ l) (hb : b ∈ l) (hpa : P a = true) (hpb : P b = true) : a = b := by
  induction l with
  | nil => cases ha
  | cons x xs ih =>
    simp only [List.countP_cons] at h
    by_cases hPx : P x = true
    · have h0 : xs.countP P = 0 := by rw [if_pos hPx] at h; omega
      have hnot := List.countP_eq_zero.mp h0
      rcases List.mem_cons.mp ha with rfl | ha₂
      · rcases List.mem_cons.mp hb with rfl | hb₂
        · rfl
        · exact absurd hpb (hnot b hb₂)
      · exact absurd hpa (hnot a ha₂)
    · have h1 : xs.countP P ≤ 1 := by rw [if_neg hPx] at h; omega
      rcases List.mem_cons.mp ha with rfl | ha₂
      · exact absurd hpa hPx
      · rcases List.mem_cons.mp hb with rfl | hb₂
        · exact absurd hpb hPx
        · exact ih h1 ha₂ hb₂

/-- The unscoped updateMany clear leaves no message pinned. -/
theorem pinnedCount_clearAllPins (s : Store) : pinnedCount (clearAllPins s) = 0 := by
  rw [pinnedCount, clearAllPins, List.countP_eq_zero]
  intro m hm
  rcases List.mem_map.mp hm with ⟨b, _, rfl⟩
  simp

/-- The unscoped updateMany clear preserves the message id list. -/
theorem nodupIds_clearAllPins (s : Store) (h : NodupIds s) : NodupIds (clearAllPins s) := by
  rw [NodupIds, clearAllPins]
  simp only []
  rw [map_keys_preserved s.messages (fun m => { m with isPinned := false })
    (fun m => m.id) (fun a => rfl)]
  exact h

/-- An id-preserving single-row update preserves the message id list. -/
theorem nodupIds_updateMessage (s : Store) (mid : Nat) (f : Message → Message)
    (hf : ∀ m, (f m).id = m.id) (h : NodupIds s) : NodupIds (updateMessage s mid f) := by
  rw [NodupIds, updateMessage]
  simp only []
  rw [map_keys_preserved s.messages (fun m => if m.id == mid then f m else m) (fun m => m.id)]
  · exact h
  · intro a
    by_cases hc : (a.id == mid) = true <;> simp [hc, hf]

/-- A single-row update that never turns isPinned on does not increase
the pinned count. -/
theorem pinnedCount_updateMessage_le (s : Store) (mid : Nat) (f : Message → Message)
    (hf : ∀ m, (f m).isPinned = true → m.isPinned = true) :
    pinnedCount (updateMessage s mid f) ≤ pinnedCount s := by
  rw [pinnedCount, pinnedCount, updateMessage]
  apply countP_map_le
  intro a _ hp
  by_cases hc : (a.id == mid) = true
  · rw [if_pos hc] at hp; exact hf a hp
  · rw [if_neg hc] at hp; exact hp

/-- Setting the pin on one row of an all-unpinned store with distinct
ids leaves at most one message pinned. -/
theorem pinnedCount_set_pin_le_one (s : Store) (mid : Nat) (f : Message → Message)
    (hnd : NodupIds s) (hall : ∀ m ∈ s.messages, m.isPinned = false) :
    pinnedCount (updateMessage s mid f) ≤ 1 := by
  rw [pinnedCount, updateMessage]
  calc (s.messages.map (fun m => if m.id == mid then f m else m)).countP (fun m => m.isPinned)
      ≤ s.messages.countP (fun m => m.id == mid) := by
        apply countP_map_le
        intro a ha hp
        by_cases hc : (a.id == mid) = true
        · exact hc
        · rw [if_neg hc] at hp
          rw [hall a ha] at hp
          cases hp
    _ ≤ 1 := key_countP_le_one s.messages (fun m => m.id) hnd mid

/-- One pin_message or delete_message step preserves both the key
uniqueness of message ids and the at-most-one-pin invariant. -/
theorem applyOp_preserves (s : Store) (op : ChatOp)
    (hnd : NodupIds s) (hpin : pinnedCount s ≤ 1) (hop : isRestoreOp op = false) :
    NodupIds (applyOp s op) ∧ pinnedCount (applyOp s op) ≤ 1 := by
  cases op with
  | restore a mid => simp [isRestoreOp] at hop
  | pin mid b =>
    show NodupIds (pinMessage s mid b).store ∧ pinnedCount (pinMessage s mid b).store ≤ 1
    cases b with
    | true =>
      have hnd1 := nodupIds_clearAllPins s hnd
      have hall : ∀ m ∈ (clearAllPins s).messages, m.isPinned = false := by
        intro m hm
        rcases List.mem_map.mp hm with ⟨b, _, rfl⟩
        rfl
      have hred : pinMessage s mid true =
          match findMessage (clearAllPins s) mid with
          | none => errReply (clearAllPins s) "Failed to pin message"
          | some _ =>
            { store := updateMessage (clearAllPins s) mid (fun m => { m with isPinned := true }),
              broadcasts := [.messagePinned mid true], directed := [], errorToActor := none } := rfl
      rw [hred]
      cases hf : findMessage (clearAllPins s) mid with
      | none =>
        refine ⟨hnd1, ?_⟩
        show pinnedCount (clearAllPins s) ≤ 1
        rw [pinnedCount_clearAllPins]
        omega
      | some m =>
        exact ⟨nodupIds_updateMessage _ _ _ (fun m => rfl) hnd1,
          pinnedCount_set_pin_le_one _ _ _ hnd1 hall⟩
    | false =>
      have hred : pinMessage s mid false =
          match findMessage s mid with
          | none => errReply s "Failed to pin message"
          | some _ =>
            { store := updateMessage s mid (fun m => { m with isPinned := false }),
              broadcasts := [.messagePinned mid false], directed := [], errorToActor := none } := rfl
      rw [hred]
      cases hf : findMessage s mid with
      | none => exact ⟨hnd, hpin⟩
      | some m =>
        refine ⟨nodupIds_updateMessage _ _ _ (fun m => rfl) hnd, ?_⟩
        show pinnedCount (updateMessage s mid (fun m => { m with isPinned := false })) ≤ 1
        calc pinnedCount (updateMessage s mid (fun m => { m with isPinned := false }))
            ≤ pinnedCount s := pinnedCount_updateMessage_le _ _ _ (by intro m h; cases h)
          _ ≤ 1 := hpin
  | del a mid =>
    show NodupIds (deleteMessage s a mid).store ∧ pinnedCount (deleteMessage s a mid).store ≤ 1
    unfold deleteMessage
    cases hf : findMessage s mid with
    | none => exact ⟨hnd, hpin⟩
    | some msg =>
      dsimp only
      by_cases hauth : msg.authorId ≠ a ∧ a ≠ 1
      · rw [if_pos hauth]
        exact ⟨hnd, hpin⟩
      · rw [if_neg hauth]
        refine ⟨nodupIds_updateMessage _ _ _ (fun m => rfl) hnd, ?_⟩
        show pinnedCount (updateMessage s mid
          (fun m => { m with isDeleted := true, isPinned := false, wasPinned := msg.isPinned })) ≤ 1
        calc pinnedCount (updateMessage s mid
              (fun m => { m with isDeleted := true, isPinned := false, wasPinned := msg.isPinned }))
            ≤ pinnedCount s := pinnedCount_updateMessage_le _ _ _ (by intro m h; cases h)
          _ ≤ 1 := hpin

/-- C1 (counterexample).  The claimed invariant fails on a serial
sequence that includes restore_message: starting from a two-message
store with nothing pinned, pinning message 1, deleting it (which parks
the pin in wasPinned), pinning message 2, and then restoring message 1
leaves both messages with isPinned = true. -/
theorem C1_counterexample :
    pinnedCount cexStore = 0 ∧
    pinnedCount (runOps cexStore
      [ChatOp.pin 1 true, ChatOp.del 1 1, ChatOp.pin 2 true, ChatOp.restore 1 1]) = 2 := by
  decide

/-- C1 (amended).  In every state reachable by a serial sequence of
pin_message and delete_message operations from a store with pairwise
distinct message ids and at most one pinned message, at most one
Message has isPinned = true; restore_message is excluded because it can
re-pin a deleted message without clearing the current pin. -/
theorem C1_pin_delete_mutual_exclusion (s : Store) (ops : List ChatOp)
    (hnd : NodupIds s) (hpin : pinnedCount s ≤ 1)
    (hops : ∀ op ∈ ops, isRestoreOp op = false) :
    pinnedCount (runOps s ops) ≤ 1 := by
  induction ops generalizing s with
  | nil => simpa [runOps] using hpin
  | cons op rest ih =>
    have h1 := applyOp_preserves s op hnd hpin (hops op (by simp))
    have : runOps s (op :: rest) = runOps (applyOp s op) rest := rfl
    rw [this]
    exact ih (applyOp s op) h1.1 h1.2 (fun o ho => hops o (by simp [ho]))

/-- C1 (witness): the amended invariant applied to the concrete store
and the pin-then-delete sequence from the counterexample. -/
theorem C1_pin_delete_mutual_exclusion_witness :
    pinnedCount (runOps cexStore [ChatOp.pin 1 true, ChatOp.del 1 1]) ≤ 1 :=
  C1_pin_delete_mutual_exclusion cexStore [ChatOp.pin 1 true, ChatOp.del 1 1]
    (by rw [NodupIds]; decide) (by decide) (by decide)

/-- On the two-message parent cycle the upward root walk never reaches
its halting condition, whatever fuel it is given: it alternates between
the two messages forever. -/
theorem walkUp_cycStore_diverges (fuel : Nat) :
    walkUp cycStore fuel (mkMsg 1 1 0 (some 2)) = none ∧
    walkUp cycStore fuel (mkMsg 2 1 0 (some 1)) = none := by
  induction fuel with
  | zero => exact ⟨rfl, rfl⟩
  | succ n ih =>
    constructor
    · have h2 : findMessage cycStore 2 = some (mkMsg 2 1 0 (some 1)) := by decide
      show walkUp cycStore n (mkMsg 2 1 0 (some 1)) = none
      exact ih.2
    · show walkUp cycStore n (mkMsg 1 1 0 (some 2)) = none
      exact ih.1

/-- C2 (counterexample).  ResolveThread does not terminate on every
store: on the cyclic store the start message is present (so the Not
Found early return is not taken), yet no amount of fuel makes the
upward root walk halt — the while-loop over parentId runs forever
because every referenced parent resolves and is never parentless. -/
theorem C2_counterexample :
    (mkMsg 1 1 0 (some 2)) ∈ cycStore.messages ∧
    ¬ ∃ (fuel : Nat) (r : Message), walkUp cycStore fuel (mkMsg 1 1 0 (some 2)) = some r := by
  constructor
  · decide
  · rintro ⟨fuel, r, hr⟩
    rw [(walkUp_cycStore_diverges fuel).1] at hr
    cases hr

/-- Any message found by findMessage carries the looked-up id and is a
member of the store. -/
theorem findMessage_spec (s : Store) (mid : Nat) (m : Message)
    (h : findMessage s mid = some m) : m ∈ s.messages ∧ m.id = mid := by
  rw [findMessage] at h
  refine ⟨List.mem_of_find?_eq_some h, ?_⟩
  have := List.find?_some h
  exact eq_of_beq this

/-- With id-decreasing parent links, fuel exceeding the start id makes
the upward walk halt. -/
theorem walkUp_halts (s : Store) (fuel : Nat)
    (hchain : s.messages.all parentBelow = true) :
    ∀ m ∈ s.messages, m.id < fuel → ∃ r, walkUp s fuel m = some r := by
  induction fuel with
  | zero => intro m _ h; omega
  | succ n ih =>
    intro m hm hlt
    rw [walkUp]
    cases hp : m.parentId with
    | none => exact ⟨m, rfl⟩
    | some pid =>
      dsimp only
      cases hf : findMessage s pid with
      | none => exact ⟨m, rfl⟩
      | some p =>
        have hspec := findMessage_spec s pid p hf
        have hbelow : parentBelow m = true := List.all_eq_true.mp hchain m hm
        rw [parentBelow, hp] at hbelow
        have hpid : pid < m.id := by simpa using hbelow
        have hpn : p.id < n := by rw [hspec.2]; omega
        exact ih p hspec.1 hpn

/-- Each round of the downward expansion consumes one unit of the depth
budget, so the number of fetch rounds never exceeds the budget. -/
theorem bfsLoop_iterations_le (s : Store) (fuel : Nat) (queue : List Nat) :
    (bfsLoop s fuel queue).2 ≤ fuel := by
  induction fuel generalizing queue with
  | zero => simp [bfsLoop]
  | succ n ih =>
    rw [bfsLoop]
    by_cases hq : queue.isEmpty = true
    · rw [if_pos hq]
      simp
    · rw [if_neg hq]
      dsimp only
      by_cases hb : (childrenOf s queue).isEmpty = true
      · rw [if_pos hb]
        simp
      · rw [if_neg hb]
        have := ih ((childrenOf s queue).map (fun m => m.id))
        dsimp only
        omega

/-- C2 (amended).  The downward breadth-first expansion of the thread
resolver always halts within the hard depth bound of MAX_DEPTH = 50
fetch rounds, on every store; the upward root walk halts on every store
whose parent links point strictly below the referencing id (which every
store reachable through send_message satisfies, a reply only ever
naming an already-persisted message), with any fuel exceeding the start
message's id.  On stores whose parentId links form a cycle the upward
walk does not terminate (see the counterexample). -/
theorem C2_thread_resolver_termination :
    (∀ (s : Store) (m : Message), s.messages.all parentBelow = true →
        m ∈ s.messages → ∃ r, walkUp s (m.id + 1) m = some r) ∧
    (∀ (s : Store) (queue : List Nat), (bfsLoop s MAX_DEPTH queue).2 ≤ MAX_DEPTH) := by
  constructor
  · intro s m hchain hm
    exact walkUp_halts s (m.id + 1) hchain m hm (by omega)
  · intro s queue
    exact bfsLoop_iterations_le s MAX_DEPTH queue

/-- C2 (witness): the amended termination statement applied to the
concrete two-message store with no parent links. -/
theorem C2_thread_resolver_termination_witness :
    (∃ r, walkUp cexStore ((mkMsg 1 1).id + 1) (mkMsg 1 1) = some r) ∧
    (bfsLoop cexStore MAX_DEPTH [1]).2 ≤ MAX_DEPTH :=
  ⟨C2_thread_resolver_termination.1 cexStore (mkMsg 1 1) (by decide) (by decide),
   C2_thread_resolver_termination.2 cexStore [1]⟩

/-- delete_message branch equation: missing target. -/
theorem deleteMessage_none (s : Store) (a mid : Nat)
    (h : findMessage s mid = none) : deleteMessage s a mid = noReply s := by
  rw [deleteMessage, h]

/-- delete_message branch equation: unauthorized invoker. -/
theorem deleteMessage_unauth (s : Store) (a mid : Nat) (msg : Message)
    (h : findMessage s mid = some msg) (ha : msg.authorId ≠ a ∧ a ≠ 1) :
    deleteMessage s a mid = errReply s "Unauthorized" := by
  rw [deleteMessage, h]
  dsimp only
  rw [if_pos ha]

/-- delete_message branch equation: authorized soft delete. -/
theorem deleteMessage_success (s : Store) (a mid : Nat) (msg : Message)
    (h : findMessage s mid = some msg) (ha : ¬(msg.authorId ≠ a ∧ a ≠ 1)) :
    deleteMessage s a mid =
      { store := updateMessage s mid
          (fun m => { m with isDeleted := true, isPinned := false, wasPinned := msg.isPinned }),
        broadcasts := (if msg.isPinned then [.messagePinned mid false] else [])
          ++ [.messageDeleted mid],
        directed := [], errorToActor := none } := by
  rw [deleteMessage, h]
  dsimp only
  rw [if_neg ha]

/-- restore_message branch equation: missing target. -/
theorem restoreMessage_none (s : Store) (a mid : Nat)
    (h : findMessage s mid = none) : restoreMessage s a mid = noReply s := by
  rw [restoreMessage, h]

/-- restore_message branch equation: non-author invoker. -/
theorem restoreMessage_unauth (s : Store) (a mid : Nat) (msg : Message)
    (h : findMessage s mid = some msg) (ha : msg.authorId ≠ a) :
    restoreMessage s a mid = noReply s := by
  rw [restoreMessage, h]
  dsimp only
  rw [if_pos ha]

/-- restore_message branch equation: author restore. -/
theorem restoreMessage_success (s : Store) (a mid : Nat) (msg : Message)
    (h : findMessage s mid = some msg) (ha : ¬ msg.authorId ≠ a) :
    restoreMessage s a mid =
      { store := updateMessage s mid
          (fun m => { m with isDeleted := false, isPinned := msg.wasPinned, wasPinned := false }),
        broadcasts := [.messageRestored mid]
          ++ (if msg.wasPinned then [.messagePinned mid true] else []),
        directed := [], errorToActor := none } := by
  rw [restoreMessage, h]
  dsimp only
  rw [if_neg ha]

/-- edit_message branch equation: missing target. -/
theorem editMessage_noneEq (san : String → String) (s : Store) (a mid : Nat)
    (c : String) (now : Nat) (h : findMessage s mid = none) :
    editMessage san s a mid c now = errReply s "Unauthorized" := by
  rw [editMessage, h]

/-- edit_message branch equation: non-author invoker. -/
theorem editMessage_unauth (san : String → String) (s : Store) (a mid : Nat)
    (c : String) (now : Nat) (msg : Message)
    (h : findMessage s mid = some msg) (ha : msg.authorId ≠ a) :
    editMessage san s a mid c now = errReply s "Unauthorized" := by
  rw [editMessage, h]
  dsimp only
  rw [if_pos ha]

/-- edit_message branch equation: past the 5-minute window. -/
theorem editMessage_late (san : String → String) (s : Store) (a mid : Nat)
    (c : String) (now : Nat) (msg : Message)
    (h : findMessage s mid = some msg) (ha : ¬ msg.authorId ≠ a)
    (ht : EDIT_WINDOW_MS < now - msg.createdAt) :
    editMessage san s a mid c now = errReply s "Edit time limit exceeded (5 mins)" := by
  rw [editMessage, h]
  dsimp only
  rw [if_neg ha, if_pos ht]

/-- edit_message branch equation: the successful transaction. -/
theorem editMessage_success (san : String → String) (s : Store) (a mid : Nat)
    (c : String) (now : Nat) (msg : Message)
    (h : findMessage s mid = some msg) (ha : ¬ msg.authorId ≠ a)
    (ht : ¬ EDIT_WINDOW_MS < now - msg.createdAt) :
    editMessage san s a mid c now =
      { store := updateMessage
          { s with
            history := s.history ++ [HistoryEntry.mk mid (msg.content.getD "")],
            mentions := s.mentions.map (fun mn =>
              if mn.messageId == mid then { mn with isRead := false, readAt := none } else mn) }
          mid (fun m => { m with content := some (san c) }),
        broadcasts := [.messageUpdated mid], directed := [], errorToActor := none } := by
  rw [editMessage, h]
  dsimp only
  rw [if_neg ha, if_neg ht]

/-- C4 (counterexample).  A missing target is a silent no-op for delete
but not for edit: invoking edit_message on the absent id 5 reports an
Unauthorized error back to the invoking actor, so the claimed
error-free silence fails on the edit path. -/
theorem C4_counterexample :
    findMessage cexStore 5 = none ∧
    (editMessage id cexStore 1 5 "x" 0).errorToActor = some "Unauthorized" := by
  decide

/-- C4 (amended).  For every message id that does not resolve, both
handlers leave the persisted state untouched and broadcast nothing;
delete_message is a fully silent no-op, while edit_message emits an
Unauthorized error to the invoking actor (and to it only). -/
theorem C4_missing_target_no_op (sanitize : String → String) (s : Store)
    (actorId mid : Nat) (c : String) (now : Nat)
    (h : findMessage s mid = none) :
    deleteMessage s actorId mid = noReply s ∧
    editMessage sanitize s actorId mid c now = errReply s "Unauthorized" :=
  ⟨deleteMessage_none s actorId mid h, editMessage_noneEq sanitize s actorId mid c now h⟩

/-- C4 (witness): the amended statement applied at the absent id 5 of
the concrete store. -/
theorem C4_missing_target_no_op_witness :
    deleteMessage cexStore 1 5 = noReply cexStore ∧
    editMessage id cexStore 1 5 "x" 0 = errReply cexStore "Unauthorized" :=
  C4_missing_target_no_op id cexStore 1 5 "x" 0 (by decide)

/-- C9.  edit_message succeeds exactly when the target exists, the
invoking actor is its author, and no more than 5 minutes have elapsed
since creation; every rejection is delivered as an error to the
initiating actor only — nothing broadcast, nothing directed — with the
store left unchanged. -/
theorem C9_edit_window_authorization (sanitize : String → String) (s : Store)
    (actorId mid : Nat) (c : String) (now : Nat) :
    ((editMessage sanitize s actorId mid c now).errorToActor = none ↔
      ∃ msg, findMessage s mid = some msg ∧ msg.authorId = actorId ∧
        now - msg.createdAt ≤ EDIT_WINDOW_MS) ∧
    ((editMessage sanitize s actorId mid c now).errorToActor ≠ none →
      (editMessage sanitize s actorId mid c now).store = s ∧
      (editMessage sanitize s actorId mid c now).broadcasts = [] ∧
      (editMessage sanitize s actorId mid c now).directed = []) := by
  cases hf : findMessage s mid with
  | none =>
    rw [editMessage_noneEq sanitize s actorId mid c now hf]
    constructor
    · constructor
      · intro h
        cases h
      · rintro ⟨msg, hmsg, -, -⟩
        cases hmsg
    · intro _
      exact ⟨rfl, rfl, rfl⟩
  | some msg =>
    by_cases hauth : msg.authorId ≠ actorId
    · rw [editMessage_unauth sanitize s actorId mid c now msg hf hauth]
      constructor
      · constructor
        · intro h
          cases h
        · rintro ⟨msg2, hmsg2, ha2, -⟩
          cases hmsg2
          exact absurd ha2 hauth
      · intro _
        exact ⟨rfl, rfl, rfl⟩
    · by_cases htime : EDIT_WINDOW_MS < now - msg.createdAt
      · rw [editMessage_late sanitize s actorId mid c now msg hf hauth htime]
        constructor
        · constructor
          · intro h
            cases h
          · rintro ⟨msg2, hmsg2, -, ht2⟩
            cases hmsg2
            omega
        · intro _
          exact ⟨rfl, rfl, rfl⟩
      · rw [editMessage_success sanitize s actorId mid c now msg hf hauth htime]
        constructor
        · constructor
          · intro _
            refine ⟨msg, rfl, ?_, by omega⟩
            by_contra hne
            exact hauth hne
          · intro _
            rfl
        · intro h
          exact absurd rfl h

/-- C9 (witness): the characterization applied to a concrete in-window
author edit on the two-message store. -/
theorem C9_edit_window_authorization_witness :
    ((editMessage id cexStore 1 1 "x" 299999).errorToActor = none ↔
      ∃ msg, findMessage cexStore 1 = some msg ∧ msg.authorId = 1 ∧
        299999 - msg.createdAt ≤ EDIT_WINDOW_MS) ∧
    ((editMessage id cexStore 1 1 "x" 299999).errorToActor ≠ none →
      (editMessage id cexStore 1 1 "x" 299999).store = cexStore ∧
      (editMessage id cexStore 1 1 "x" 299999).broadcasts = [] ∧
      (editMessage id cexStore 1 1 "x" 299999).directed = []) :=
  C9_edit_window_authorization id cexStore 1 1 "x" 299999

/-- C6.  A successful edit resets every Mention on the edited message
to unread (isRead false, readAt null) — including previously
acknowledged ones — in the same transaction that appends the pre-edit
content to the edit history and stores the sanitized new content, and
the single resulting broadcast is the updated-message event. -/
theorem C6_edit_resets_all_mentions (san : String → String) (s : Store)
    (actorId mid : Nat) (c : String) (now : Nat)
    (hsucc : (editMessage san s actorId mid c now).errorToActor = none) :
    (∀ mn ∈ (editMessage san s actorId mid c now).store.mentions,
        mn.messageId = mid → mn.isRead = false ∧ mn.readAt = none) ∧
    (∃ msg, findMessage s mid = some msg ∧
        (editMessage san s actorId mid c now).store.history =
          s.history ++ [HistoryEntry.mk mid (msg.content.getD "")]) ∧
    (∀ m ∈ (editMessage san s actorId mid c now).store.messages,
        m.id = mid → m.content = some (san c)) ∧
    (editMessage san s actorId mid c now).broadcasts = [Event.messageUpdated mid] := by
  cases hf : findMessage s mid with
  | none =>
    rw [editMessage_noneEq san s actorId mid c now hf] at hsucc
    cases hsucc
  | some msg =>
    by_cases hauth : msg.authorId ≠ actorId
    · rw [editMessage_unauth san s actorId mid c now msg hf hauth] at hsucc
      cases hsucc
    · by_cases htime : EDIT_WINDOW_MS < now - msg.createdAt
      · rw [editMessage_late san s actorId mid c now msg hf hauth htime] at hsucc
        cases hsucc
      · rw [editMessage_success san s actorId mid c now msg hf hauth htime]
        refine ⟨?_, ⟨msg, rfl, rfl⟩, ?_, rfl⟩
        · intro mn hmn hmid
          rcases List.mem_map.mp hmn with ⟨x, hx, rfl⟩
          by_cases hc : (x.messageId == mid) = true
          · rw [if_pos hc]
            exact ⟨rfl, rfl⟩
          · rw [if_neg hc] at hmid ⊢
            exact absurd (by simp [hmid]) hc
        · intro m hm hmid
          rcases List.mem_map.mp hm with ⟨x, hx, rfl⟩
          by_cases hc : (x.id == mid) = true
          · rw [if_pos hc]
          · rw [if_neg hc] at hmid ⊢
            exact absurd (by simp [hmid]) hc

/-- C6 (witness): the reset behaviour on a concrete store where one
mention on the edited message was already acknowledged. -/
theorem C6_edit_resets_all_mentions_witness :
    (∀ mn ∈ (editMessage id mnStore 1 1 "new" 0).store.mentions,
        mn.messageId = 1 → mn.isRead = false ∧ mn.readAt = none) ∧
    (∃ msg, findMessage mnStore 1 = some msg ∧
        (editMessage id mnStore 1 1 "new" 0).store.history =
          mnStore.history ++ [HistoryEntry.mk 1 (msg.content.getD "")]) ∧
    (∀ m ∈ (editMessage id mnStore 1 1 "new" 0).store.messages,
        m.id = 1 → m.content = some (id "new")) ∧
    (editMessage id mnStore 1 1 "new" 0).broadcasts = [Event.messageUpdated 1] :=
  C6_edit_resets_all_mentions id mnStore 1 1 "new" 0 (by decide)

/-- findMessage after an id-preserving single-row update returns the
updated image of whatever it returned before. -/
theorem findMessage_updateMessage (s : Store) (mid : Nat) (f : Message → Message)
    (hid : ∀ m, (f m).id = m.id) (tid : Nat) :
    findMessage (updateMessage s mid f) tid =
      (findMessage s tid).map (fun m => if m.id == mid then f m else m) := by
  rw [findMessage, findMessage, updateMessage]
  apply find?_map_comm
  intro a
  by_cases hc : (a.id == mid) = true <;> simp [hc, hid]

/-- C7.  Deleting an existing message through its author records the
pin state: the stored row becomes isDeleted with isPinned cleared and
wasPinned equal to the pre-delete isPinned; the author's subsequent
restore clears isDeleted and wasPinned and sets isPinned back to the
pre-delete value — so a pinned message is re-pinned by restore and an
unpinned one stays unpinned. -/
theorem C7_delete_restore_pin_round_trip (s : Store) (actorId mid : Nat) (msg : Message)
    (hf : findMessage s mid = some msg) (hauth : msg.authorId = actorId) :
    ∃ dmsg rmsg,
      findMessage (deleteMessage s actorId mid).store mid = some dmsg ∧
      dmsg.isDeleted = true ∧ dmsg.isPinned = false ∧ dmsg.wasPinned = msg.isPinned ∧
      findMessage (restoreMessage (deleteMessage s actorId mid).store actorId mid).store mid
        = some rmsg ∧
      rmsg.isDeleted = false ∧ rmsg.isPinned = msg.isPinned ∧ rmsg.wasPinned = false := by
  have hmid : msg.id = mid := (findMessage_spec s mid msg hf).2
  have hna : ¬(msg.authorId ≠ actorId ∧ actorId ≠ 1) := by
    intro hcon
    exact hcon.1 hauth
  have h1 : findMessage
      (updateMessage s mid
        (fun m => { m with isDeleted := true, isPinned := false, wasPinned := msg.isPinned })) mid
      = some { msg with isDeleted := true, isPinned := false, wasPinned := msg.isPinned } := by
    rw [findMessage_updateMessage s mid
      (fun m => { m with isDeleted := true, isPinned := false, wasPinned := msg.isPinned })
      (fun m => rfl) mid, hf]
    dsimp only [Option.map]
    rw [if_pos (show (msg.id == mid) = true by simp [hmid])]
  have hna2 : ¬ ({ msg with isDeleted := true, isPinned := false, wasPinned := msg.isPinned } : Message).authorId ≠ actorId := fun hcon => hcon hauth
  have h2 : findMessage
      (updateMessage
        (updateMessage s mid
          (fun m => { m with isDeleted := true, isPinned := false, wasPinned := msg.isPinned }))
        mid
        (fun m => { m with isDeleted := false, isPinned := ({ msg with isDeleted := true, isPinned := false, wasPinned := msg.isPinned } : Message).wasPinned, wasPinned := false })) mid
      = some { msg with isDeleted := false, isPinned := msg.isPinned, wasPinned := false } := by
    rw [findMessage_updateMessage
      (updateMessage s mid
        (fun m => { m with isDeleted := true, isPinned := false, wasPinned := msg.isPinned }))
      mid
      (fun m => { m with isDeleted := false, isPinned := ({ msg with isDeleted := true, isPinned := false, wasPinned := msg.isPinned } : Message).wasPinned, wasPinned := false })
      (fun m => rfl) mid, h1]
    dsimp only [Option.map]
    rw [if_pos (show (({ msg with isDeleted := true, isPinned := false, wasPinned := msg.isPinned } : Message).id == mid) = true by simp [hmid])]
  rw [deleteMessage_success s actorId mid msg hf hna]
  dsimp only
  rw [restoreMessage_success _ actorId mid _ h1 hna2]
  dsimp only
  exact ⟨{ msg with isDeleted := true, isPinned := false, wasPinned := msg.isPinned },
    { msg with isDeleted := false, isPinned := msg.isPinned, wasPinned := false },
    h1, rfl, rfl, rfl, h2, rfl, rfl, rfl⟩

/-- C7 (witness): the delete/restore pin round trip on the concrete
store whose message 1 is pinned. -/
theorem C7_delete_restore_pin_round_trip_witness :
    ∃ dmsg rmsg,
      findMessage (deleteMessage pinStore 1 1).store 1 = some dmsg ∧
      dmsg.isDeleted = true ∧ dmsg.isPinned = false ∧
      dmsg.wasPinned = ({ mkMsg 1 1 with isPinned := true } : Message).isPinned ∧
      findMessage (restoreMessage (deleteMessage pinStore 1 1).store 1 1).store 1 = some rmsg ∧
      rmsg.isDeleted = false ∧
      rmsg.isPinned = ({ mkMsg 1 1 with isPinned := true } : Message).isPinned ∧
      rmsg.wasPinned = false :=
  C7_delete_restore_pin_round_trip pinStore 1 1 { mkMsg 1 1 with isPinned := true }
    (by decide) rfl

/-- pin_message branch equation: target found after the optional clear. -/
theorem pinMessage_found (s : Store) (mid : Nat) (b : Bool) (m : Message)
    (h : findMessage (if b then clearAllPins s else s) mid = some m) :
    pinMessage s mid b =
      { store := updateMessage (if b then clearAllPins s else s) mid
          (fun x => { x with isPinned := b }),
        broadcasts := [.messagePinned mid b], directed := [], errorToActor := none } := by
  rw [pinMessage, h]

/-- pin_message branch equation: target missing (the update throws after
the optional unscoped clear has already been applied). -/
theorem pinMessage_notFound (s : Store) (mid : Nat) (b : Bool)
    (h : findMessage (if b then clearAllPins s else s) mid = none) :
    pinMessage s mid b = errReply (if b then clearAllPins s else s) "Failed to pin message" := by
  rw [pinMessage, h]

/-- toggle_reaction branch equation: the triple exists and is removed. -/
theorem toggleReaction_found (s : Store) (a mid : Nat) (e : String) (r : Reaction)
    (h : s.reactions.find?
      (fun x => x.userId == a && x.messageId == mid && x.emoji == e) = some r) :
    toggleReaction s a mid e =
      { store := { s with reactions := s.reactions.filter (fun x => x.id != r.id) },
        broadcasts := [.reactionRemoved mid e a], directed := [], errorToActor := none } := by
  rw [toggleReaction, h]

/-- toggle_reaction branch equation: no triple and no host message, so
the create fails on the foreign key and nothing happens. -/
theorem toggleReaction_absent_noMsg (s : Store) (a mid : Nat) (e : String)
    (h1 : s.reactions.find?
      (fun x => x.userId == a && x.messageId == mid && x.emoji == e) = none)
    (h2 : findMessage s mid = none) :
    toggleReaction s a mid e = noReply s := by
  rw [toggleReaction, h1]
  dsimp only
  rw [h2]

/-- toggle_reaction branch equation: no triple yet, host present, so a
fresh row is created. -/
theorem toggleReaction_create (s : Store) (a mid : Nat) (e : String) (m : Message)
    (h1 : s.reactions.find?
      (fun x => x.userId == a && x.messageId == mid && x.emoji == e) = none)
    (h2 : findMessage s mid = some m) :
    toggleReaction s a mid e =
      { store := { s with
          reactions := s.reactions ++ [Reaction.mk s.nextReactionId a mid e],
          nextReactionId := s.nextReactionId + 1 },
        broadcasts := [.reactionAdded mid s.nextReactionId a e],
        directed := [], errorToActor := none } := by
  rw [toggleReaction, h1]
  dsimp only
  rw [h2]

/-- C3 (counterexample).  pin_message with isPinned true on an absent
message id aborts with an error yet has already cleared the existing
pin: the persisted state differs from the pre-state while nothing was
broadcast, a partial change invisible only until the next read. -/
theorem C3_counterexample :
    (pinMessage pinStore 99 true).errorToActor ≠ none ∧
    (pinMessage pinStore 99 true).store ≠ pinStore ∧
    (pinMessage pinStore 99 true).broadcasts = [] := by
  decide

/-- C3 (amended).  Every state-changing socket handler commits together
with its broadcast or aborts with the persisted state intact —
delete_message, edit_message, restore_message and toggle_reaction on
every input, and pin_message whenever its target id resolves; the one
exception, forced by the counterexample, is pin_message on an absent id
with isPinned true, which clears the current pin and then aborts. -/
theorem C3_mutation_atomicity (sanitize : String → String) (s : Store) :
    (∀ a mid, atomicResult s (deleteMessage s a mid)) ∧
    (∀ a mid c now, atomicResult s (editMessage sanitize s a mid c now)) ∧
    (∀ a mid, atomicResult s (restoreMessage s a mid)) ∧
    (∀ a mid e, atomicResult s (toggleReaction s a mid e)) ∧
    (∀ mid b, findMessage s mid ≠ none → atomicResult s (pinMessage s mid b)) := by
  refine ⟨?_, ?_, ?_, ?_, ?_⟩
  · intro a mid
    cases hf : findMessage s mid with
    | none =>
      rw [deleteMessage_none s a mid hf]
      exact ⟨fun he => absurd rfl he, fun hs => absurd rfl hs⟩
    | some msg =>
      by_cases ha : msg.authorId ≠ a ∧ a ≠ 1
      · rw [deleteMessage_unauth s a mid msg hf ha]
        exact ⟨fun _ => ⟨rfl, rfl⟩, fun hs => absurd rfl hs⟩
      · rw [deleteMessage_success s a mid msg hf ha]
        refine ⟨fun he => absurd rfl he, fun _ => ?_⟩
        cases msg.isPinned <;> simp
  · intro a mid c now
    cases hf : findMessage s mid with
    | none =>
      rw [editMessage_noneEq sanitize s a mid c now hf]
      exact ⟨fun _ => ⟨rfl, rfl⟩, fun hs => absurd rfl hs⟩
    | some msg =>
      by_cases ha : msg.authorId ≠ a
      · rw [editMessage_unauth sanitize s a mid c now msg hf ha]
        exact ⟨fun _ => ⟨rfl, rfl⟩, fun hs => absurd rfl hs⟩
      · by_cases ht : EDIT_WINDOW_MS < now - msg.createdAt
        · rw [editMessage_late sanitize s a mid c now msg hf ha ht]
          exact ⟨fun _ => ⟨rfl, rfl⟩, fun hs => absurd rfl hs⟩
        · rw [editMessage_success sanitize s a mid c now msg hf ha ht]
          exact ⟨fun he => absurd rfl he, fun _ => by simp⟩
  · intro a mid
    cases hf : findMessage s mid with
    | none =>
      rw [restoreMessage_none s a mid hf]
      exact ⟨fun he => absurd rfl he, fun hs => absurd rfl hs⟩
    | some msg =>
      by_cases ha : msg.authorId ≠ a
      · rw [restoreMessage_unauth s a mid msg hf ha]
        exact ⟨fun he => absurd rfl he, fun hs => absurd rfl hs⟩
      · rw [restoreMessage_success s a mid msg hf ha]
        refine ⟨fun he => absurd rfl he, fun _ => ?_⟩
        cases msg.wasPinned <;> simp
  · intro a mid e
    cases hr : s.reactions.find?
        (fun x => x.userId == a && x.messageId == mid && x.emoji == e) with
    | some r =>
      rw [toggleReaction_found s a mid e r hr]
      exact ⟨fun he => absurd rfl he, fun _ => by simp⟩
    | none =>
      cases hf : findMessage s mid with
      | none =>
        rw [toggleReaction_absent_noMsg s a mid e hr hf]
        exact ⟨fun he => absurd rfl he, fun hs => absurd rfl hs⟩
      | some m =>
        rw [toggleReaction_create s a mid e m hr hf]
        exact ⟨fun he => absurd rfl he, fun _ => by simp⟩
  · intro mid b hex
    cases hf : findMessage (if b then clearAllPins s else s) mid with
    | none =>
      exfalso
      apply hex
      cases b with
      | false => exact hf
      | true =>
        have : findMessage (clearAllPins s) mid =
            (findMessage s mid).map (fun m => { m with isPinned := false }) := by
          rw [findMessage, findMessage, clearAllPins]
          exact find?_map_comm s.messages _ _ (fun a => rfl)
        rw [if_pos rfl] at hf
        rw [this] at hf
        cases hfs : findMessage s mid with
        | none => rfl
        | some m => rw [hfs] at hf; cases hf
    | some m =>
      rw [pinMessage_found s mid b m hf]
      exact ⟨fun he => absurd rfl he, fun _ => by simp⟩

/-- C3 (witness): atomicity applied to a concrete rejected edit (absent
id, error to actor, no change) and to a successful pin on an existing
id. -/
theorem C3_mutation_atomicity_witness :
    ((editMessage id cexStore 1 5 "x" 0).errorToActor ≠ none →
      (editMessage id cexStore 1 5 "x" 0).store = cexStore ∧
      (editMessage id cexStore 1 5 "x" 0).broadcasts = []) ∧
    ((pinMessage cexStore 1 true).store ≠ cexStore →
      (pinMessage cexStore 1 true).broadcasts ≠ []) :=
  ⟨((C3_mutation_atomicity id cexStore).2.1 1 5 "x" 0).1,
   ((C3_mutation_atomicity id cexStore).2.2.2.2 1 true (by decide)).2⟩

/-- find? skips a prefix in which nothing satisfies the predicate. -/
theorem find?_append_none {α : Type} (l₁ l₂ : List α) (p : α → Bool)
    (h : l₁.find? p = none) : (l₁ ++ l₂).find? p = l₂.find? p := by
  induction l₁ with
  | nil => rfl
  | cons x xs ih =>
    cases hp : p x with
    | true => rw [List.find?_cons_of_pos xs hp] at h; cases h
    | false =>
      rw [List.find?_cons_of_neg xs (by simp [hp])] at h
      rw [List.cons_append, List.find?_cons_of_neg (xs ++ l₂) (by simp [hp])]
      exact ih h

/-- toggle_reaction preserves the autoincrement discipline and the
unique-triple index. -/
theorem toggle_preserves_inv (s : Store) (a mid : Nat) (e : String)
    (hfresh : ReactionIdsFresh s) (hdup : NoDupTriples s) :
    ReactionIdsFresh (toggleReaction s a mid e).store ∧
    NoDupTriples (toggleReaction s a mid e).store := by
  cases hr : s.reactions.find?
      (fun x => x.userId == a && x.messageId == mid && x.emoji == e) with
  | some r =>
    rw [toggleReaction_found s a mid e r hr]
    constructor
    · constructor
      · intro x hx
        exact hfresh.1 x (List.mem_of_mem_filter hx)
      · exact ((List.filter_sublist s.reactions).map (fun t : Reaction => t.id)).nodup hfresh.2
    · intro uid' mid' e'
      calc (s.reactions.filter (fun x => x.id != r.id)).countP
            (fun x => x.userId == uid' && x.messageId == mid' && x.emoji == e')
          ≤ s.reactions.countP
            (fun x => x.userId == uid' && x.messageId == mid' && x.emoji == e') :=
            (List.filter_sublist s.reactions).countP_le _
        _ ≤ 1 := hdup uid' mid' e'
  | none =>
    cases hf : findMessage s mid with
    | none =>
      rw [toggleReaction_absent_noMsg s a mid e hr hf]
      exact ⟨hfresh, hdup⟩
    | some m =>
      rw [toggleReaction_create s a mid e m hr hf]
      dsimp only
      have hzero : s.reactions.countP
          (fun x => x.userId == a && x.messageId == mid && x.emoji == e) = 0 := by
        rw [List.countP_eq_zero]
        intro x hx
        have := List.find?_eq_none.mp hr x hx
        simpa using this
      constructor
      · constructor
        · intro x hx
          show x.id < s.nextReactionId + 1
          rcases List.mem_append.mp hx with hx1 | hx2
          · have := hfresh.1 x hx1
            omega
          · rcases List.mem_singleton.mp hx2 with rfl
            show s.nextReactionId < s.nextReactionId + 1
            omega
        · rw [List.map_append]
          rw [List.nodup_append]
          refine ⟨hfresh.2, List.nodup_singleton _, ?_⟩
          intro i hi hic
          rcases List.mem_singleton.mp hic with rfl
          rcases List.mem_map.mp hi with ⟨x, hx, hxid⟩
          have hlt := hfresh.1 x hx
          have hxid2 : x.id = s.nextReactionId := hxid
          omega
      · intro uid' mid' e'
        rw [reactionKeyCount]
        dsimp only
        rw [List.countP_append]
        by_cases hmatch : ((Reaction.mk s.nextReactionId a mid e).userId == uid' &&
            (Reaction.mk s.nextReactionId a mid e).messageId == mid' &&
            (Reaction.mk s.nextReactionId a mid e).emoji == e') = true
        · have huid : a = uid' := by
            have h1 := (Bool.and_eq_true _ _).mp hmatch
            have h2 := (Bool.and_eq_true _ _).mp h1.1
            exact eq_of_beq h2.1
          have hmid2 : mid = mid' := by
            have h1 := (Bool.and_eq_true _ _).mp hmatch
            have h2 := (Bool.and_eq_true _ _).mp h1.1
            exact eq_of_beq h2.2
          have he : e = e' := by
            have h1 := (Bool.and_eq_true _ _).mp hmatch
            exact eq_of_beq h1.2
          subst huid hmid2 he
          rw [hzero]
          simp
        · have hm0 : List.countP
              (fun r => r.userId == uid' && r.messageId == mid' && r.emoji == e')
              [Reaction.mk s.nextReactionId a mid e] = 0 := by
            rw [List.countP_eq_zero]
            intro x hx
            rcases List.mem_singleton.mp hx with rfl
            simpa using hmatch
          rw [hm0]
          have := hdup uid' mid' e'
          rw [reactionKeyCount] at this
          omega

/-- A toggle pair starting from an absent triple restores the reaction
table exactly: the row created by the first toggle is the one removed
by the second. -/
theorem toggle_pair_absent (s : Store) (a mid : Nat) (e : String) (m : Message)
    (hfresh : ReactionIdsFresh s)
    (hr : s.reactions.find?
      (fun x => x.userId == a && x.messageId == mid && x.emoji == e) = none)
    (hf : findMessage s mid = some m) :
    (toggleReaction (toggleReaction s a mid e).store a mid e).store.reactions
      = s.reactions := by
  rw [toggleReaction_create s a mid e m hr hf]
  have hpnew : ((Reaction.mk s.nextReactionId a mid e).userId == a &&
      (Reaction.mk s.nextReactionId a mid e).messageId == mid &&
      (Reaction.mk s.nextReactionId a mid e).emoji == e) = true := by simp
  have hfind2 : (s.reactions ++ [Reaction.mk s.nextReactionId a mid e]).find?
      (fun x => x.userId == a && x.messageId == mid && x.emoji == e)
      = some (Reaction.mk s.nextReactionId a mid e) := by
    rw [find?_append_none s.reactions _ _ hr]
    exact List.find?_cons_of_pos _ hpnew
  rw [toggleReaction_found _ a mid e _ hfind2]
  rw [List.filter_append]
  have h1 : s.reactions.filter
      (fun x => x.id != (Reaction.mk s.nextReactionId a mid e).id) = s.reactions := by
    apply List.filter_eq_self.mpr
    intro x hx
    have hlt := hfresh.1 x hx
    show (x.id != s.nextReactionId) = true
    simp only [bne_iff_ne]
    omega
  have h2 : ([Reaction.mk s.nextReactionId a mid e]).filter
      (fun x => x.id != (Reaction.mk s.nextReactionId a mid e).id) = [] := by
    simp
  rw [h1, h2, List.append_nil]

/-- A toggle pair starting from a present triple removes it and then
recreates one row with the same key, so the per-triple row count is
restored. -/
theorem toggle_pair_present (s : Store) (a mid : Nat) (e : String) (r : Reaction) (m : Message)
    (hdup : NoDupTriples s)
    (hr : s.reactions.find?
      (fun x => x.userId == a && x.messageId == mid && x.emoji == e) = some r)
    (hf : findMessage s mid = some m) :
    reactionKeyCount (toggleReaction (toggleReaction s a mid e).store a mid e).store a mid e
      = reactionKeyCount s a mid e := by
  have hrmem : r ∈ s.reactions := List.mem_of_find?_eq_some hr
  have hpr := List.find?_some hr
  have hcnt1 : reactionKeyCount s a mid e = 1 := by
    have hpos : 0 < s.reactions.countP
        (fun x => x.userId == a && x.messageId == mid && x.emoji == e) :=
      List.countP_pos_iff.mpr ⟨r, hrmem, hpr⟩
    have hle := hdup a mid e
    rw [reactionKeyCount] at hle ⊢
    omega
  have hzero : (s.reactions.filter (fun x => x.id != r.id)).countP
      (fun x => x.userId == a && x.messageId == mid && x.emoji == e) = 0 := by
    rw [List.countP_eq_zero]
    intro x hx hpx
    have hxl : x ∈ s.reactions := List.mem_of_mem_filter hx
    have hxr : x = r := by
      apply countP_le_one_unique s.reactions
        (fun x => x.userId == a && x.messageId == mid && x.emoji == e) ?_ hxl hrmem hpx hpr
      have := hdup a mid e
      rw [reactionKeyCount] at this
      exact this
    have hxf := List.of_mem_filter hx
    rw [hxr] at hxf
    simp at hxf
  have hfind2 : (s.reactions.filter (fun x => x.id != r.id)).find?
      (fun x => x.userId == a && x.messageId == mid && x.emoji == e) = none := by
    rw [List.find?_eq_none]
    intro x hx hpx
    exact (List.countP_eq_zero.mp hzero) x hx hpx
  rw [toggleReaction_found s a mid e r hr]
  have hf2 : findMessage
      { s with reactions := s.reactions.filter (fun x => x.id != r.id) } mid = some m := hf
  have hfind2b : ({ s with reactions := s.reactions.filter (fun x => x.id != r.id) } :
      Store).reactions.find?
      (fun x => x.userId == a && x.messageId == mid && x.emoji == e) = none := hfind2
  rw [toggleReaction_create
    { s with reactions := s.reactions.filter (fun x => x.id != r.id) } a mid e m hfind2b hf2]
  rw [reactionKeyCount]
  dsimp only
  rw [List.countP_append, hzero, hcnt1]
  simp

/-- C5.  Two successive toggle_reaction calls for the same (user,
message, emoji) triple with no intervening writes restore the triple's
row count to its initial value, and no serial sequence of toggles ever
produces two Reaction rows with the same triple — the handler only
creates when its lookup found nothing, mirroring the unique index
Reaction_userId_messageId_emoji_key. -/
theorem C5_toggle_involution_and_uniqueness :
    (∀ (s : Store) (uid mid : Nat) (e : String),
        ReactionIdsFresh s → NoDupTriples s → findMessage s mid ≠ none →
        reactionKeyCount
          (toggleReaction (toggleReaction s uid mid e).store uid mid e).store uid mid e
          = reactionKeyCount s uid mid e) ∧
    (∀ (s : Store) (ops : List (Nat × Nat × String)),
        ReactionIdsFresh s → NoDupTriples s → NoDupTriples (runToggles s ops)) := by
  constructor
  · intro s uid mid e hfresh hdup hmsg
    cases hm : findMessage s mid with
    | none => exact absurd hm hmsg
    | some m =>
      cases hr : s.reactions.find?
          (fun x => x.userId == uid && x.messageId == mid && x.emoji == e) with
      | none =>
        have hlist := toggle_pair_absent s uid mid e m hfresh hr hm
        rw [reactionKeyCount, reactionKeyCount, hlist]
      | some r =>
        exact toggle_pair_present s uid mid e r m hdup hr hm
  · intro s ops hfresh hdup
    induction ops generalizing s with
    | nil => exact hdup
    | cons op rest ih =>
      have hstep := toggle_preserves_inv s op.1 op.2.1 op.2.2 hfresh hdup
      have hrun : runToggles s (op :: rest)
          = runToggles (toggleReaction s op.1 op.2.1 op.2.2).store rest := rfl
      rw [hrun]
      exact ih _ hstep.1 hstep.2

/-- C5 (witness): the toggle pair applied to a concrete store and
triple, and triple-uniqueness after a concrete toggle sequence. -/
theorem C5_toggle_involution_and_uniqueness_witness :
    reactionKeyCount
      (toggleReaction (toggleReaction cexStore 1 1 "x").store 1 1 "x").store 1 1 "x"
      = reactionKeyCount cexStore 1 1 "x" ∧
    NoDupTriples (runToggles cexStore [(1, 1, "x"), (2, 1, "x"), (1, 1, "x")]) :=
  ⟨C5_toggle_involution_and_uniqueness.1 cexStore 1 1 "x"
      (by constructor <;> simp [cexStore]) (fun uid mid e => by simp [reactionKeyCount, cexStore])
      (by decide),
   C5_toggle_involution_and_uniqueness.2 cexStore [(1, 1, "x"), (2, 1, "x"), (1, 1, "x")]
      (by constructor <;> simp [cexStore]) (fun uid mid e => by simp [reactionKeyCount, cexStore])⟩

/-- mark_read branch equation: absent message, the upsert fails on the
foreign key and the swallowed exception skips the buffer insertion. -/
theorem markRead_noMsg (s : Store) (buf : ReadBuffer) (a mid : Nat)
    (h : findMessage s mid = none) : markRead s buf a mid = (s, buf) := by
  rw [markRead, h]

/-- mark_read branch equation: host present, durable upsert plus buffer
insertion. -/
theorem markRead_some (s : Store) (buf : ReadBuffer) (a mid : Nat) (m : Message)
    (h : findMessage s mid = some m) :
    markRead s buf a mid =
      (if s.reads.any (fun r => r.userId == a && r.messageId == mid) then s
       else { s with reads := s.reads ++ [MessageRead.mk a mid] },
       bufferAdd buf mid a) := by
  rw [markRead, h]

/-- mark_read never touches the message table. -/
theorem markRead_messages (s : Store) (buf : ReadBuffer) (a mid : Nat) :
    (markRead s buf a mid).1.messages = s.messages := by
  cases hf : findMessage s mid with
  | none => rw [markRead_noMsg s buf a mid hf]
  | some m =>
    rw [markRead_some s buf a mid m hf]
    by_cases hany : s.reads.any (fun r => r.userId == a && r.messageId == mid) = true
    · rw [if_pos hany]
    · rw [if_neg hany]

/-- One mark_read call on a present message makes the pair's durable
row count exactly one when it was zero and leaves it alone otherwise. -/
theorem markRead_readCount (s : Store) (buf : ReadBuffer) (uid mid : Nat) (m : Message)
    (h : findMessage s mid = some m) :
    readCount (markRead s buf uid mid).1 uid mid =
      if readCount s uid mid = 0 then 1 else readCount s uid mid := by
  rw [markRead_some s buf uid mid m h]
  by_cases hany : s.reads.any (fun r => r.userId == uid && r.messageId == mid) = true
  · rw [if_pos hany]
    have hpos : 0 < readCount s uid mid := by
      rcases List.any_eq_true.mp hany with ⟨x, hx, hpx⟩
      exact List.countP_pos_iff.mpr ⟨x, hx, hpx⟩
    rw [if_neg (by omega)]
  · rw [if_neg hany]
    have hzero : readCount s uid mid = 0 := by
      rw [readCount, List.countP_eq_zero]
      intro x hx hpx
      exact hany (List.any_eq_true.mpr ⟨x, hx, hpx⟩)
    rw [if_pos hzero, readCount]
    dsimp only
    rw [List.countP_append, readCount] at *
    rw [hzero]
    simp

/-- Once the pair's durable row count is one and the message persists,
any further mark_read calls keep it at one. -/
theorem repeatMarkRead_keeps_one (uid mid : Nat) (n : Nat) :
    ∀ (s : Store) (buf : ReadBuffer), findMessage s mid ≠ none →
    readCount s uid mid = 1 →
    readCount (repeatMarkRead uid mid n (s, buf)).1 uid mid = 1 := by
  induction n with
  | zero => intro s buf _ h1; exact h1
  | succ k ih =>
    intro s buf hmsg h1
    cases hf : findMessage s mid with
    | none => exact absurd hf hmsg
    | some m =>
      have hstep := markRead_readCount s buf uid mid m hf
      rw [h1] at hstep
      have hmsg2 : findMessage (markRead s buf uid mid).1 mid ≠ none := by
        rw [findMessage, markRead_messages s buf uid mid]
        rw [findMessage] at hf
        rw [hf]
        intro hcon
        cases hcon
      have : repeatMarkRead uid mid (k + 1) (s, buf)
          = repeatMarkRead uid mid k (markRead s buf uid mid) := rfl
      rw [this]
      have hsplit : markRead s buf uid mid
          = ((markRead s buf uid mid).1, (markRead s buf uid mid).2) := rfl
      rw [hsplit]
      apply ih
      · exact hmsg2
      · simpa using hstep

/-- bufferAdd keeps every buffered user-id set duplicate free. -/
theorem bufferAdd_nodup (buf : ReadBuffer) (mid uid : Nat) (h : BufNodup buf) :
    BufNodup (bufferAdd buf mid uid) := by
  rw [bufferAdd]
  cases hfind : buf.find? (fun e => e.1 == mid) with
  | none =>
    intro e he
    rcases List.mem_append.mp he with he1 | he2
    · exact h e he1
    · rcases List.mem_singleton.mp he2 with rfl
      exact List.nodup_singleton uid
  | some entry =>
    intro e he
    rcases List.mem_map.mp he with ⟨x, hx, rfl⟩
    by_cases hc : (x.1 == mid) = true
    · rw [if_pos hc]
      by_cases hmem : uid ∈ x.2
      · rw [if_pos hmem]
        exact h x hx
      · rw [if_neg hmem]
        show (x.2 ++ [uid]).Nodup
        rw [List.nodup_append]
        exact ⟨h x hx, List.nodup_singleton uid, by
          intro i hi hic
          rcases List.mem_singleton.mp hic with rfl
          exact hmem hi⟩
    · rw [if_neg hc]
      exact h x hx

/-- mark_read keeps every buffered user-id set duplicate free. -/
theorem markRead_bufNodup (s : Store) (buf : ReadBuffer) (a mid : Nat)
    (h : BufNodup buf) : BufNodup (markRead s buf a mid).2 := by
  cases hf : findMessage s mid with
  | none =>
    rw [markRead_noMsg s buf a mid hf]
    exact h
  | some m =>
    rw [markRead_some s buf a mid m hf]
    exact bufferAdd_nodup buf mid a h

/-- Any serial sequence of mark_read calls keeps the buffer duplicate
free. -/
theorem runMarkReads_bufNodup (ops : List (Nat × Nat)) :
    ∀ (s : Store) (buf : ReadBuffer), BufNodup buf →
    BufNodup (runMarkReads (s, buf) ops).2 := by
  induction ops with
  | nil => intro s buf h; exact h
  | cons op rest ih =>
    intro s buf h
    have hrun : runMarkReads ((s, buf) : Store × ReadBuffer) (op :: rest)
        = runMarkReads (markRead s buf op.1 op.2) rest := rfl
    rw [hrun]
    have hsplit : markRead s buf op.1 op.2
        = ((markRead s buf op.1 op.2).1, (markRead s buf op.1 op.2).2) := rfl
    rw [hsplit]
    exact ih _ _ (markRead_bufNodup s buf op.1 op.2 h)

/-- C8.  mark_read is idempotent in the durable table — after any
number of calls for a present (user, message) pair exactly one
MessageRead row exists; each batched flush event lists every user id at
most once, for buffers built by any serial sequence of mark_read calls
from a duplicate-free start; and flushing an empty buffer emits no
event at all. -/
theorem C8_read_receipt_aggregation :
    (∀ (s : Store) (buf : ReadBuffer) (uid mid : Nat) (m : Message) (n : Nat),
        findMessage s mid = some m → readCount s uid mid = 0 →
        readCount (repeatMarkRead uid mid (n + 1) (s, buf)).1 uid mid = 1) ∧
    (∀ (s : Store) (buf : ReadBuffer) (ops : List (Nat × Nat)) (mid : Nat) (uids : List Nat),
        BufNodup buf →
        Event.readBatch mid uids ∈ (flushReadBuffer (runMarkReads (s, buf) ops).2).1 →
        uids.Nodup) ∧
    flushReadBuffer [] = ([], []) := by
  refine ⟨?_, ?_, rfl⟩
  · intro s buf uid mid m n hmsg hzero
    have hone : readCount (markRead s buf uid mid).1 uid mid = 1 := by
      rw [markRead_readCount s buf uid mid m hmsg, if_pos hzero]
    have hmsg2 : findMessage (markRead s buf uid mid).1 mid ≠ none := by
      rw [findMessage, markRead_messages s buf uid mid]
      rw [findMessage] at hmsg
      rw [hmsg]
      intro hcon
      cases hcon
    have hstep : repeatMarkRead uid mid (n + 1) (s, buf)
        = repeatMarkRead uid mid n (markRead s buf uid mid) := rfl
    rw [hstep]
    have hsplit : markRead s buf uid mid
        = ((markRead s buf uid mid).1, (markRead s buf uid mid).2) := rfl
    rw [hsplit]
    exact repeatMarkRead_keeps_one uid mid n _ _ hmsg2 hone
  · intro s buf ops mid uids hnodup hmem
    have hbuf := runMarkReads_bufNodup ops s buf hnodup
    rw [flushReadBuffer] at hmem
    by_cases hempty : (runMarkReads (s, buf) ops).2.isEmpty = true
    · rw [if_pos hempty] at hmem
      cases hmem
    · rw [if_neg hempty] at hmem
      rcases List.mem_map.mp hmem with ⟨e, he, heq⟩
      have huids : e.2 = uids := by
        cases heq
        rfl
      rw [← huids]
      exact hbuf e he

/-- C8 (witness): two mark_read calls for the pair (user 2, message 1)
leave exactly one durable row; a concrete buffered batch is duplicate
free; the empty buffer flushes to nothing. -/
theorem C8_read_receipt_aggregation_witness :
    readCount (repeatMarkRead 2 1 2 (cexStore, [])).1 2 1 = 1 ∧
    ((1 : Nat), ([2] : List Nat)).2.Nodup ∧
    flushReadBuffer [] = (([] : List Event), ([] : ReadBuffer)) :=
  ⟨C8_read_receipt_aggregation.1 cexStore [] 2 1 (mkMsg 1 1) 1 (by decide) (by decide),
   C8_read_receipt_aggregation.2.1 cexStore [] [(2, 1)] 1 [2]
     (fun e he => by cases he)
     (by decide),
   C8_read_receipt_aggregation.2.2⟩

/-- mark_mention_read branch equation: unknown mention id, the prisma
update throws and the catch only logs. -/
theorem ackMention_noMention (s : Store) (a mentionId now : Nat)
    (h : s.mentions.find? (fun mn => mn.id == mentionId) = none) :
    acknowledgeMention s a mentionId now = noReply s := by
  rw [acknowledgeMention, h]

/-- mark_mention_read branch equation: the mention resolves and its
host message exists (guaranteed by the cascade foreign key). -/
theorem ackMention_success (s : Store) (a mentionId now : Nat) (mn : Mention) (host : Message)
    (h1 : s.mentions.find? (fun mn => mn.id == mentionId) = some mn)
    (h2 : findMessage s mn.messageId = some host) :
    acknowledgeMention s a mentionId now =
      { store := { s with mentions := s.mentions.map (fun x =>
          if x.id == mentionId then { x with isRead := true, readAt := some now } else x) },
        broadcasts := [],
        directed := [(host.authorId, .mentionReadStatus mentionId mn.messageId mn.userId now),
                     (mn.userId, .myMentionUpdated mentionId)],
        errorToActor := none } := by
  rw [acknowledgeMention, h1]
  dsimp only
  rw [h2]

/-- C10 (counterexample).  mark_mention_read performs no authorization
check: user 1 — who is not the mentioned user 2 — acknowledges mention
1 and the mention is flipped to read with readAt set, so invocation by
another user does not leave the mention unchanged. -/
theorem C10_counterexample :
    (1 : Nat) ≠ 2 ∧
    (Mention.mk 1 2 1 false none) ∈ ackStore.mentions ∧
    (acknowledgeMention ackStore 1 1 5).store.mentions = [Mention.mk 1 2 1 true (some 5)] := by
  decide

/-- C10 (amended).  Acknowledging a mention has the same effect for
every invoking actor — the handler never consults the invoker, so the
authorization in the claim does not exist.  Whenever the mention id
resolves (and its host message exists), the mention is set to isRead
true with readAt = now and exactly two directed notifications are sent:
one to the host message's author naming who acknowledged and when, and
one to the mentioned user's own sessions; an unknown mention id is a
silent no-op. -/
theorem C10_acknowledge_mention_behaviour :
    (∀ (s : Store) (a b mentionId now : Nat),
        acknowledgeMention s a mentionId now = acknowledgeMention s b mentionId now) ∧
    (∀ (s : Store) (a mentionId now : Nat) (mn : Mention) (host : Message),
        s.mentions.find? (fun x => x.id == mentionId) = some mn →
        findMessage s mn.messageId = some host →
        (∀ x ∈ (acknowledgeMention s a mentionId now).store.mentions,
            x.id = mentionId → x.isRead = true ∧ x.readAt = some now) ∧
        (acknowledgeMention s a mentionId now).directed =
          [(host.authorId, .mentionReadStatus mentionId mn.messageId mn.userId now),
           (mn.userId, .myMentionUpdated mentionId)] ∧
        (acknowledgeMention s a mentionId now).broadcasts = [] ∧
        (acknowledgeMention s a mentionId now).errorToActor = none) ∧
    (∀ (s : Store) (a mentionId now : Nat),
        s.mentions.find? (fun x => x.id == mentionId) = none →
        acknowledgeMention s a mentionId now = noReply s) := by
  refine ⟨fun s a b mentionId now => rfl, ?_, fun s a mentionId now h =>
    ackMention_noMention s a mentionId now h⟩
  intro s a mentionId now mn host h1 h2
  rw [ackMention_success s a mentionId now mn host h1 h2]
  refine ⟨?_, rfl, rfl, rfl⟩
  intro x hx hid
  rcases List.mem_map.mp hx with ⟨y, hy, rfl⟩
  by_cases hc : (y.id == mentionId) = true
  · rw [if_pos hc]
    exact ⟨rfl, rfl⟩
  · rw [if_neg hc] at hid ⊢
    exact absurd (by simp [hid]) hc

/-- C10 (witness): the success behaviour on the concrete store where
user 3's message mentions user 2, acknowledged under actor id 1. -/
theorem C10_acknowledge_mention_behaviour_witness :
    (∀ x ∈ (acknowledgeMention ackStore 1 1 5).store.mentions,
        x.id = 1 → x.isRead = true ∧ x.readAt = some 5) ∧
    (acknowledgeMention ackStore 1 1 5).directed =
      [(3, .mentionReadStatus 1 1 2 5), (2, .myMentionUpdated 1)] ∧
    (acknowledgeMention ackStore 1 1 5).broadcasts = [] ∧
    (acknowledgeMention ackStore 1 1 5).errorToActor = none :=
  C10_acknowledge_mention_behaviour.2.1 ackStore 1 1 5 (Mention.mk 1 2 1 false none)
    (mkMsg 1 3) (by decide) (by decide)

end Chatbox
